import Mathlib

/-
Verification of the transaction lifecycle and latency engine of the
tx-latency-bench repository (src/main.rs, src/snake/snake.rs,
src/middleware/sync_transaction.rs, src/middleware/realtime_transaction.rs).

The Rust code is shallowly embedded: shared mutable state (the pending-moves
counter, the transaction list, the nonce counter) becomes explicit state
passing; the asynchronous receipt-monitor loop becomes a fuel-indexed
recursion driven by an RPC oracle (the sequence of get-receipt responses);
wall-clock instants become an uninterpreted clock oracle mapping each poll
attempt to an elapsed-milliseconds value.
-/

namespace TxLatency

/-- Fixed fee floor of 1 gwei, used when the reported gas price is zero
(src/main.rs lines 185-190, src/snake/snake.rs lines 861-865). -/
def feeFloor : Nat := 1000000000

/-- Benchmark-path fee policy (src/main.rs lines 185-190): 1 gwei if the
reported baseline gas price is zero, otherwise baseline times 3. -/
def gasPriceBench (baseline : Nat) : Nat :=
  if baseline = 0 then feeFloor else baseline * 3

/-- Demo-path fee policy (src/snake/snake.rs lines 861-865): 1 gwei if the
reported baseline gas price is zero, otherwise baseline times 2. -/
def gasPriceDemo (baseline : Nat) : Nat :=
  if baseline = 0 then feeFloor else baseline * 2

/-- Fixed EIP-1559 priority fee of 1 gwei (src/main.rs line 243,
src/snake/snake.rs line 364). -/
def maxPriorityFeePerGas : Nat := 1000000000

/-- EIP-1559 max fee computation (src/main.rs lines 246-251,
src/snake/snake.rs lines 365-369): the gas price when it strictly exceeds
the priority fee, otherwise twice the priority fee. -/
def maxFeePerGas (gasPrice : Nat) : Nat :=
  if maxPriorityFeePerGas < gasPrice then gasPrice else maxPriorityFeePerGas * 2

/-- Movement directions of the snake demo (src/snake/snake.rs lines 50-56). -/
inductive Direction
  | up
  | down
  | left
  | right
deriving DecidableEq, Repr

/-- src/snake/snake.rs lines 58-67. -/
def Direction.opposite : Direction → Direction
  | .up => .down
  | .down => .up
  | .left => .right
  | .right => .left

/-- Transaction status (src/snake/snake.rs lines 145-150). -/
inductive TxStatus
  | Pending
  | Confirmed
  | Failed
deriving DecidableEq, Repr

/-- One row of the transaction ledger (src/snake/snake.rs lines 188-197,
struct TransactionInfo). The Rust timestamp field is a wall-clock Instant
used only to derive confirmation_time, so the embedding keeps the derived
confirmationTime in milliseconds and drops the raw instant. -/
structure TransactionInfo where
  nonce : Nat
  hash : Nat
  status : TxStatus
  confirmationTime : Option Nat
  direction : Option Direction
  applied : Bool
deriving DecidableEq, Repr

/-- Ledger insertion with FIFO eviction (src/snake/snake.rs lines 453-459
and 526-532): push the new entry, then if the length exceeds 10 remove the
entry at index 0. -/
def recordTx (txs : List TransactionInfo) (info : TransactionInfo) :
    List TransactionInfo :=
  let l := txs ++ [info]
  if 10 < l.length then l.drop 1 else l

/-- Floored decrement of the pending-moves counter, the code shape
`if *count > 0 \x7b *count -= 1 \x7d` used at every decrement site
(src/snake/snake.rs lines 281-285, 474-478, 539-543, 549-553, 594-598,
609-613, 631-635). -/
def decrementFloor (count : Nat) : Nat :=
  if 0 < count then count - 1 else count

/-- Submission effect on the pending-moves counter: the gate in
send_move_transaction (src/snake/snake.rs lines 310-316) returns without
submitting when the counter is already at 4, otherwise the submission in
send_move_transaction_static increments it (lines 356-359). -/
def submitPendingCount (count : Nat) : Nat :=
  if 4 ≤ count then count else count + 1

/-- The two kinds of events that touch the pending-moves counter. -/
inductive CounterEvent
  | submit
  | release
deriving DecidableEq, Repr

/-- One counter event applied to the counter. -/
def counterStep (count : Nat) : CounterEvent → Nat
  | .submit => submitPendingCount count
  | .release => decrementFloor count

theorem counterStep_le_four (c : Nat) (hc : c ≤ 4) (e : CounterEvent) :
    counterStep c e ≤ 4 := by
  cases e
  · simp only [counterStep, submitPendingCount]
    split <;> omega
  · simp only [counterStep, decrementFloor]
    split <;> omega

theorem foldl_counterStep_le_four (evs : List CounterEvent) (c : Nat)
    (hc : c ≤ 4) : evs.foldl counterStep c ≤ 4 := by
  induction evs generalizing c with
  | nil => simpa using hc
  | cons e rest ih => exact ih (counterStep c e) (counterStep_le_four c hc e)

/-- Claim C1: starting from zero, any sequence of submit and release events
keeps the pending-moves counter in the range zero to four; a submit while
the counter is at least the cap of 4 leaves it unchanged (the intent is
dropped without incrementing), and a release at zero leaves it at zero
(every decrement is floored, so the counter never goes below zero). -/
theorem pending_moves_counter_bounds :
    (∀ evs : List CounterEvent, evs.foldl counterStep 0 ≤ 4) ∧
    (∀ c : Nat, 4 ≤ c → counterStep c .submit = c) ∧
    counterStep 0 .release = 0 := by
  refine ⟨fun evs => foldl_counterStep_le_four evs 0 (by omega), fun c hc => ?_, rfl⟩
  simp only [counterStep, submitPendingCount]
  exact if_pos hc

/-- Witness for C1 at concrete inputs: a submit-submit-release trace stays
at most 4, and a submit at exactly 4 is dropped. -/
theorem pending_moves_counter_bounds_witness :
    ([CounterEvent.submit, .submit, .release].foldl counterStep 0 ≤ 4) ∧
    counterStep 4 .submit = 4 :=
  ⟨pending_moves_counter_bounds.1 [CounterEvent.submit, .submit, .release],
   pending_moves_counter_bounds.2.1 4 (by omega)⟩

theorem foldl_recordTx_eq (es : List TransactionInfo) :
    es.foldl recordTx [] = es.drop (es.length - 10) := by
  induction es using List.reverseRecOn with
  | nil => rfl
  | append_singleton l e ih =>
    rw [List.foldl_append]
    simp only [List.foldl_cons, List.foldl_nil]
    rw [ih]
    simp only [List.length_append, List.length_singleton]
    by_cases h : l.length ≤ 9
    · have h0 : l.length - 10 = 0 := by omega
      have h1 : l.length + 1 - 10 = 0 := by omega
      rw [h0, h1, List.drop_zero, List.drop_zero]
      simp only [recordTx]
      rw [if_neg]
      simp only [List.length_append, List.length_singleton]
      omega
    · have hl : 10 ≤ l.length := by omega
      have hd : (l.drop (l.length - 10)).length = 10 := by
        rw [List.length_drop]
        omega
      have hcond : 10 < (l.drop (l.length - 10) ++ [e]).length := by
        simp only [List.length_append, List.length_singleton, hd]
        omega
      have h1 : recordTx (l.drop (l.length - 10)) e
          = (l.drop (l.length - 10) ++ [e]).drop 1 := by
        simp only [recordTx]
        rw [if_pos hcond]
      rw [h1, List.drop_append_of_le_length (by rw [hd]; omega), List.drop_drop,
        List.drop_append_of_le_length (by omega)]
      congr 2
      omega

/-- Claim C2: after any sequence of record operations starting from the
empty ledger, the ledger holds at most 10 entries and the surviving entries
are exactly the most recently inserted ones in insertion order: each
insertion beyond 10 evicts the single oldest entry, regardless of status. -/
theorem ledger_fifo_eviction (es : List TransactionInfo) :
    (es.foldl recordTx []).length ≤ 10 ∧
    es.foldl recordTx [] = es.drop (es.length - 10) := by
  refine ⟨?_, foldl_recordTx_eq es⟩
  rw [foldl_recordTx_eq, List.length_drop]
  omega

/-- Claim C6 counterexample: a baseline gas price of 0.5 gwei is possible,
makes the benchmark fee policy return 1.5 gwei, and there the computed max
fee is 1.5 gwei, not max(1.5 gwei, 2 gwei) = 2 gwei as the claim states. -/
theorem max_fee_not_max_formula :
    gasPriceBench 500000000 = 1500000000 ∧
    maxFeePerGas 1500000000 = 1500000000 ∧
    max 1500000000 (2 * maxPriorityFeePerGas) = 2000000000 ∧
    maxFeePerGas 1500000000 ≠ max 1500000000 (2 * maxPriorityFeePerGas) := by
  refine ⟨by decide, by decide, by decide, by decide⟩

/-- Claim C6 as amended: the priority fee is the fixed 1 gwei floor, the max
fee is the fee-policy result when that strictly exceeds the floor and twice
the floor otherwise, and consequently max fee is at least the priority fee
for every baseline gas price, on both the benchmark and the demo path. -/
theorem max_fee_ge_priority_fee (baseline : Nat) :
    maxPriorityFeePerGas ≤ maxFeePerGas (gasPriceBench baseline) ∧
    maxPriorityFeePerGas ≤ maxFeePerGas (gasPriceDemo baseline) ∧
    (maxFeePerGas (gasPriceBench baseline) = gasPriceBench baseline ∨
      maxFeePerGas (gasPriceBench baseline) = maxPriorityFeePerGas * 2) := by
  unfold maxFeePerGas gasPriceBench gasPriceDemo maxPriorityFeePerGas feeFloor
  refine ⟨?_, ?_, ?_⟩ <;> (repeat' split) <;> omega

/-- Claim C7 counterexample: on the demo path (multiplier 2) the nonzero
baseline 500000000 yields exactly the 1 gwei floor value, so compute does
not return the floor only when the baseline is 0. -/
theorem demo_fee_floor_collision :
    (500000000 : Nat) ≠ 0 ∧ gasPriceDemo 500000000 = feeFloor := by
  refine ⟨by decide, by decide⟩

/-- Claim C7 as amended: the fee policy returns the 1 gwei floor when the
baseline is 0 and baseline times multiplier otherwise (3 on the benchmark
path, 2 on the demo path); on the benchmark path the result equals the
floor exactly when the baseline is 0, but on the demo path a nonzero
baseline may also yield the floor value. -/
theorem fee_policy_compute (b : Nat) :
    (b = 0 → gasPriceBench b = feeFloor ∧ gasPriceDemo b = feeFloor) ∧
    (b ≠ 0 → gasPriceBench b = b * 3 ∧ gasPriceDemo b = b * 2) ∧
    (gasPriceBench b = feeFloor ↔ b = 0) := by
  unfold gasPriceBench gasPriceDemo feeFloor
  refine ⟨fun h0 => by simp [h0], fun hne => by simp [hne], ?_⟩
  constructor
  · intro h
    by_contra hne
    rw [if_neg hne] at h
    omega
  · intro h0
    simp [h0]

/-- Witness for C7 at concrete inputs: nonzero baseline 7 multiplies, and
baseline 0 returns the floor on both paths. -/
theorem fee_policy_compute_witness :
    gasPriceBench 7 = 21 ∧ gasPriceDemo 7 = 14 ∧
    gasPriceBench 0 = feeFloor ∧ gasPriceDemo 0 = feeFloor := by
  obtain ⟨h1, h2⟩ := (fee_policy_compute 7).2.1 (by omega)
  obtain ⟨h3, h4⟩ := (fee_policy_compute 0).1 rfl
  exact ⟨h1, h2, h3, h4⟩

/-- One response of the get-receipt RPC call: a receipt carrying an optional
status flag, no receipt yet, or a transport error. -/
inductive PollResult
  | receipt (status : Option Nat)
  | notFound
  | rpcError
deriving DecidableEq, Repr

/-- Outcome of the receipt monitor (src/snake/snake.rs lines 561-636):
settled by a classified receipt, aborted by a transport error, or timed out
after the attempt budget. -/
inductive MonitorOutcome
  | settled (s : TxStatus)
  | transportAbort
  | timedOut
deriving DecidableEq, Repr

/-- Receipt classification (src/snake/snake.rs lines 573-577): Confirmed
exactly when the receipt status flag equals Some(1), else Failed. -/
def classifyReceipt (st : Option Nat) : TxStatus :=
  if st = some 1 then .Confirmed else .Failed

/-- Update the status and confirmation time of the first ledger entry with
the given nonce, leaving the rest unchanged (src/snake/snake.rs lines
580-590 and 620-629: iterate, update on match, break). -/
def updateTx (nonce : Nat) (st : TxStatus) (ct : Nat) :
    List TransactionInfo → List TransactionInfo
  | [] => []
  | tx :: rest =>
    if tx.nonce = nonce then
      { tx with status := st, confirmationTime := some ct } :: rest
    else
      tx :: updateTx nonce st ct rest

/-- The body of monitor_transaction_receipt (src/snake/snake.rs lines
569-636), parameterized by the remaining fuel and the current attempt
index. A receipt settles the entry with the classified status and
decrements the counter only when that status is Failed; a transport error
decrements the counter and returns without touching the ledger; exhausted
fuel (the timeout path after the for loop) marks the entry Failed and
decrements the counter. -/
def monitorGo (oracle : Nat → PollResult) (clock : Nat → Nat) (nonce : Nat)
    (txs : List TransactionInfo) (count : Nat) :
    Nat → Nat → List TransactionInfo × Nat × MonitorOutcome
  | 0, attempt =>
    (updateTx nonce .Failed (clock attempt) txs, decrementFloor count, .timedOut)
  | fuel + 1, attempt =>
    match oracle attempt with
    | .receipt st =>
      (updateTx nonce (classifyReceipt st) (clock attempt) txs,
       if classifyReceipt st = .Failed then decrementFloor count else count,
       .settled (classifyReceipt st))
    | .notFound => monitorGo oracle clock nonce txs count fuel (attempt + 1)
    | .rpcError => (txs, decrementFloor count, .transportAbort)

/-- monitor_transaction_receipt (src/snake/snake.rs lines 561-636): the for
loop runs for at most 300 get-receipt attempts, sleeping 100 ms between
them. -/
def monitorTransactionReceipt (oracle : Nat → PollResult) (clock : Nat → Nat)
    (nonce : Nat) (txs : List TransactionInfo) (count : Nat) :
    List TransactionInfo × Nat × MonitorOutcome :=
  monitorGo oracle clock nonce txs count 300 0

/-- The confirmation wait loop of the benchmark path
(src/main.rs lines 97-124): `while receipt.is_none()` retries the
get-receipt call every 100 ms with no attempt bound. The fuel argument
observes the loop for a finite number of iterations: none means the loop is
still running after that many attempts; a transport error propagates as an
error result and a receipt ends the loop with its status flag. -/
def confirmLoop (oracle : Nat → PollResult) :
    Nat → Nat → Option (Except Unit (Option Nat))
  | 0, _ => none
  | fuel + 1, attempt =>
    match oracle attempt with
    | .receipt st => some (.ok st)
    | .rpcError => some (.error ())
    | .notFound => confirmLoop oracle fuel (attempt + 1)

/-- A sample pending ledger entry used by concrete witnesses. -/
def tx0 : TransactionInfo :=
  { nonce := 5, hash := 100, status := .Pending, confirmationTime := none,
    direction := some .up, applied := false }

theorem monitorGo_skip (oracle : Nat → PollResult) (clock : Nat → Nat)
    (nonce : Nat) (txs : List TransactionInfo) (count : Nat) :
    ∀ (j fuel attempt : Nat), j ≤ fuel →
      (∀ k, k < j → oracle (attempt + k) = .notFound) →
      monitorGo oracle clock nonce txs count fuel attempt =
        monitorGo oracle clock nonce txs count (fuel - j) (attempt + j) := by
  intro j
  induction j with
  | zero => intro fuel attempt _ _; rfl
  | succ j ih =>
    intro fuel attempt hj hnf
    obtain ⟨f, rfl⟩ : ∃ f, fuel = f + 1 := ⟨fuel - 1, by omega⟩
    have h0 : oracle attempt = .notFound := by
      have := hnf 0 (by omega)
      simpa using this
    have hstep : monitorGo oracle clock nonce txs count (f + 1) attempt =
        monitorGo oracle clock nonce txs count f (attempt + 1) := by
      simp [monitorGo, h0]
    have hnf2 : ∀ k, k < j → oracle (attempt + 1 + k) = .notFound := by
      intro k hk
      have := hnf (k + 1) (by omega)
      have harg : attempt + 1 + k = attempt + (k + 1) := by omega
      rw [harg]
      exact this
    rw [hstep, ih f (attempt + 1) (by omega) hnf2]
    have e1 : f - j = f + 1 - (j + 1) := by omega
    have e2 : attempt + 1 + j = attempt + (j + 1) := by omega
    rw [e1, e2]

theorem monitorGo_agree (o1 o2 : Nat → PollResult) (clock : Nat → Nat)
    (nonce : Nat) (txs : List TransactionInfo) (count : Nat) :
    ∀ (fuel attempt : Nat),
      (∀ k, attempt ≤ k → k < attempt + fuel → o2 k = o1 k) →
      monitorGo o2 clock nonce txs count fuel attempt =
        monitorGo o1 clock nonce txs count fuel attempt := by
  intro fuel
  induction fuel with
  | zero => intro attempt _; rfl
  | succ f ih =>
    intro attempt hagree
    have h0 : o2 attempt = o1 attempt := hagree attempt (by omega) (by omega)
    cases ho : o1 attempt with
    | receipt st => simp [monitorGo, h0, ho]
    | rpcError => simp [monitorGo, h0, ho]
    | notFound =>
      simp only [monitorGo, h0, ho]
      exact ih (attempt + 1) (fun k hk1 hk2 => hagree k (by omega) (by omega))

/-- Claim C3 counterexample: with one pending entry of nonce 5 and one
in-flight slot held, a settlement classified Confirmed on the first attempt
leaves the counter at 1 (the slot is not released at settlement), and a
settlement by RPC transport error leaves the entry status Pending (the
ledger entry is never updated on that path). -/
theorem settlement_paths_deviate :
    (monitorTransactionReceipt (fun _ => .receipt (some 1)) (fun _ => 0)
        5 [tx0] 1).2.1 = 1 ∧
    ((monitorTransactionReceipt (fun _ => .rpcError) (fun _ => 0)
        5 [tx0] 1).1.map TransactionInfo.status) = [TxStatus.Pending] := by
  refine ⟨rfl, rfl⟩

/-- Claim C3 as amended: on the first decisive get-receipt response at
attempt j (all earlier attempts returning no receipt), a receipt settles
the first matching ledger entry with the classified status, decrementing
the in-flight counter exactly when the classification is Failed and leaving
it unchanged when Confirmed (the Confirmed slot is released later by the
speculative applier); an RPC transport error stops polling, decrements the
counter, and leaves the ledger unchanged, so the entry status stays
Pending. -/
theorem monitor_settlement_paths (oracle : Nat → PollResult)
    (clock : Nat → Nat) (nonce : Nat) (txs : List TransactionInfo)
    (count : Nat) (j : Nat) (hj : j < 300)
    (hnf : ∀ k, k < j → oracle k = .notFound) :
    (∀ st, oracle j = .receipt st →
      monitorTransactionReceipt oracle clock nonce txs count =
        (updateTx nonce (classifyReceipt st) (clock j) txs,
         if classifyReceipt st = .Failed then decrementFloor count else count,
         .settled (classifyReceipt st))) ∧
    (oracle j = .rpcError →
      monitorTransactionReceipt oracle clock nonce txs count =
        (txs, decrementFloor count, .transportAbort)) := by
  have hskip := monitorGo_skip oracle clock nonce txs count j 300 0 (by omega)
    (fun k hk => by simpa using hnf k hk)
  obtain ⟨m, hm⟩ : ∃ m, 300 - j = m + 1 := ⟨300 - j - 1, by omega⟩
  constructor
  · intro st hst
    rw [monitorTransactionReceipt, hskip, hm]
    simp [monitorGo, hst]
  · intro herr
    rw [monitorTransactionReceipt, hskip, hm]
    simp [monitorGo, herr]

/-- Witness for the amended C3 at a concrete input: an oracle that returns
no receipt on attempts 0 and 1 and a failed receipt (status 0) on attempt
2 settles the nonce-5 entry as Failed with the clock value of attempt 2 and
decrements the counter from 3 to 2. -/
theorem monitor_settlement_paths_witness :
    monitorTransactionReceipt
        (fun k => if k < 2 then .notFound else .receipt (some 0))
        (fun _ => 7) 5 [tx0] 3 =
      ([{ tx0 with status := .Failed, confirmationTime := some 7 }], 2,
        .settled .Failed) := by
  have h := (monitor_settlement_paths
      (fun k => if k < 2 then .notFound else .receipt (some 0))
      (fun _ => 7) 5 [tx0] 3 2 (by omega)
      (fun k hk => by simp [hk])).1 (some 0) (by simp)
  rw [h]
  simp [classifyReceipt, decrementFloor, updateTx, tx0]

theorem confirmLoop_notFound (fuel attempt : Nat) :
    confirmLoop (fun _ => .notFound) fuel attempt = none := by
  induction fuel generalizing attempt with
  | zero => rfl
  | succ f ih => simpa [confirmLoop] using ih (attempt + 1)

/-- Claim C4 counterexample: the benchmark confirmation loop
(src/main.rs lines 97-124) has no attempt bound: when no receipt ever
arrives it is still running after 301 poll attempts, one more than the
claimed 300-attempt budget, and has produced no Failed or Timeout
outcome. -/
theorem benchmark_poll_never_times_out :
    confirmLoop (fun _ => .notFound) 301 0 = none :=
  confirmLoop_notFound 301 0

/-- Claim C4 as amended: the demo receipt monitor is bounded: its outcome
depends only on the first 300 get-receipt responses, and if none of those
300 attempts yields a receipt or a transport error the outcome is a
timeout, with the entry marked Failed and the in-flight counter
decremented; the benchmark confirmation loop, by contrast, retries at
100 ms with no attempt bound. -/
theorem monitor_poll_bounded (oracle oracle2 : Nat → PollResult)
    (clock : Nat → Nat) (nonce : Nat) (txs : List TransactionInfo)
    (count : Nat) :
    ((∀ k, k < 300 → oracle k = .notFound) →
      monitorTransactionReceipt oracle clock nonce txs count =
        (updateTx nonce .Failed (clock 300) txs, decrementFloor count,
         .timedOut)) ∧
    ((∀ k, k < 300 → oracle2 k = oracle k) →
      monitorTransactionReceipt oracle2 clock nonce txs count =
        monitorTransactionReceipt oracle clock nonce txs count) := by
  constructor
  · intro hnf
    rw [monitorTransactionReceipt,
      monitorGo_skip oracle clock nonce txs count 300 300 0 (by omega)
        (fun k hk => by simpa using hnf k hk)]
    rfl
  · intro hagree
    exact monitorGo_agree oracle oracle2 clock nonce txs count 300 0
      (fun k hk1 hk2 => hagree k (by omega))

/-- Witness for the amended C4 at a concrete input: with an oracle that
never returns a receipt, the monitor for the nonce-5 entry times out, marks
the entry Failed at the clock value of attempt 300, and decrements the
counter from 1 to 0; and an oracle agreeing on the first 300 attempts gives
the same result. -/
theorem monitor_poll_bounded_witness :
    monitorTransactionReceipt (fun _ => .notFound) (fun n => n) 5 [tx0] 1 =
      ([{ tx0 with status := .Failed, confirmationTime := some 300 }], 0,
        .timedOut) ∧
    monitorTransactionReceipt
        (fun k => if k < 300 then .notFound else .receipt (some 1))
        (fun n => n) 5 [tx0] 1 =
      monitorTransactionReceipt (fun _ => .notFound) (fun n => n) 5 [tx0] 1 := by
  have h1 := (monitor_poll_bounded (fun _ => .notFound)
      (fun k => if k < 300 then .notFound else .receipt (some 1))
      (fun n => n) 5 [tx0] 1).1 (fun k hk => rfl)
  have h2 := (monitor_poll_bounded (fun _ => .notFound)
      (fun k => if k < 300 then .notFound else .receipt (some 1))
      (fun n => n) 5 [tx0] 1).2 (fun k hk => by simp [hk])
  refine ⟨?_, h2⟩
  rw [h1]
  simp [updateTx, decrementFloor, tx0]

/-- The selection predicate of the speculative applier
(src/snake/snake.rs lines 256-259): status Confirmed, a direction payload
present, and not yet applied. -/
def applicableTx (tx : TransactionInfo) : Bool :=
  tx.status == .Confirmed && tx.direction.isSome && !tx.applied

/-- Mark the first ledger entry with the given nonce as applied, leaving
the rest unchanged (src/snake/snake.rs lines 266-274: iterate, set applied
on match, break). -/
def markAppliedByNonce (nonce : Nat) :
    List TransactionInfo → List TransactionInfo
  | [] => []
  | tx :: rest =>
    if tx.nonce = nonce then { tx with applied := true } :: rest
    else tx :: markAppliedByNonce nonce rest

/-- The speculative-apply phase of Game::update
(src/snake/snake.rs lines 250-286): scan for the first entry with status
Confirmed, a direction present and applied still false; if one is found,
mark the first entry carrying its nonce as applied, decrement the
pending-moves counter with the zero floor, and hand its direction to the
caller; otherwise leave the ledger, the counter and the snake untouched. -/
def speculativeApply (txs : List TransactionInfo) (count : Nat) :
    List TransactionInfo × Nat × Option Direction :=
  match txs.find? applicableTx with
  | some tx => (markAppliedByNonce tx.nonce txs, decrementFloor count, tx.direction)
  | none => (txs, count, none)

theorem find?_eq_get_of_first {α : Type} (p : α → Bool) :
    ∀ (l : List α) (i : Nat) (hi : i < l.length),
      p (l.get ⟨i, hi⟩) = true →
      (∀ j (hj : j < l.length), j < i → p (l.get ⟨j, hj⟩) = false) →
      l.find? p = some (l.get ⟨i, hi⟩) := by
  intro l
  induction l with
  | nil => intro i hi; exact absurd hi (by simp)
  | cons x rest ih =>
    intro i hi hp hlt
    cases i with
    | zero =>
      simp only [List.get] at hp
      simp [List.find?, hp]
    | succ n =>
      have hx : p x = false := by
        have := hlt 0 (Nat.succ_pos rest.length) (Nat.succ_pos n)
        simpa using this
      simp only [List.find?, hx]
      exact ih n (by simpa using hi) (by simpa using hp)
        (fun j hj hjn => by
          have := hlt (j + 1) (by simpa using Nat.succ_lt_succ hj)
            (Nat.succ_lt_succ hjn)
          simpa using this)

theorem markAppliedByNonce_set :
    ∀ (txs : List TransactionInfo),
      txs.Pairwise (fun a b => a.nonce ≠ b.nonce) →
      ∀ (i : Nat) (hi : i < txs.length),
        markAppliedByNonce (txs.get ⟨i, hi⟩).nonce txs =
          txs.set i { txs.get ⟨i, hi⟩ with applied := true } := by
  intro txs
  induction txs with
  | nil => intro _ i hi; exact absurd hi (by simp)
  | cons x rest ih =>
    intro hn i hi
    cases i with
    | zero => simp [markAppliedByNonce]
    | succ n =>
      have hrest : n < rest.length := by simpa using hi
      have hmem : (rest.get ⟨n, hrest⟩) ∈ rest := List.get_mem rest n hrest
      have hne : x.nonce ≠ (rest.get ⟨n, hrest⟩).nonce :=
        (List.pairwise_cons.mp hn).1 _ hmem
      simp only [List.get, List.set]
      rw [markAppliedByNonce, if_neg hne]
      rw [ih (List.pairwise_cons.mp hn).2 n hrest]

/-- Claim C5: on one consumer tick with pairwise-distinct nonces in the
ledger, the speculative applier either finds nothing applicable and leaves
the ledger, the counter and the output unchanged, or selects the first
entry in insertion order that is Confirmed with a direction payload and not
yet applied, marks exactly that entry applied, decrements the in-flight
counter with the zero floor, and returns that entry direction; hence
effects are applied in insertion order even when confirmations arrive out
of nonce order. -/
theorem speculative_apply_first (txs : List TransactionInfo) (count : Nat)
    (hn : txs.Pairwise (fun a b => a.nonce ≠ b.nonce)) :
    ((∀ tx ∈ txs, applicableTx tx = false) →
      speculativeApply txs count = (txs, count, none)) ∧
    (∀ (i : Nat) (hi : i < txs.length), applicableTx (txs.get ⟨i, hi⟩) = true →
      (∀ (j : Nat) (hj : j < txs.length), j < i →
        applicableTx (txs.get ⟨j, hj⟩) = false) →
      speculativeApply txs count =
        (txs.set i { txs.get ⟨i, hi⟩ with applied := true },
          decrementFloor count, (txs.get ⟨i, hi⟩).direction)) := by
  constructor
  · intro hall
    have hnone : txs.find? applicableTx = none := by
      rw [List.find?_eq_none]
      intro x hx
      simp [hall x hx]
    simp [speculativeApply, hnone]
  · intro i hi hp hlt
    have hfind : txs.find? applicableTx = some (txs.get ⟨i, hi⟩) :=
      find?_eq_get_of_first applicableTx txs i hi hp hlt
    simp only [speculativeApply, hfind]
    rw [markAppliedByNonce_set txs hn i hi]

/-- Witness for C5 at a concrete input realizing the out-of-nonce-order
scenario: the nonce-1 entry was inserted first and confirmed in 500 ms, the
nonce-2 entry confirmed earlier in 300 ms, yet the tick applies the nonce-1
direction first, marks only that entry applied, and decrements the counter
from 2 to 1. -/
theorem speculative_apply_first_witness :
    speculativeApply
        [{ nonce := 1, hash := 11, status := .Confirmed,
           confirmationTime := some 500, direction := some .up,
           applied := false },
         { nonce := 2, hash := 12, status := .Confirmed,
           confirmationTime := some 300, direction := some .down,
           applied := false }] 2 =
      ([{ nonce := 1, hash := 11, status := .Confirmed,
          confirmationTime := some 500, direction := some .up,
          applied := true },
        { nonce := 2, hash := 12, status := .Confirmed,
          confirmationTime := some 300, direction := some .down,
          applied := false }], 1, some .up) := by
  have h := (speculative_apply_first
      [{ nonce := 1, hash := 11, status := .Confirmed,
         confirmationTime := some 500, direction := some .up,
         applied := false },
       { nonce := 2, hash := 12, status := .Confirmed,
         confirmationTime := some 300, direction := some .down,
         applied := false }] 2 (by decide)).2 0 (by decide) (by decide)
      (fun j hj hj0 => absurd hj0 (by omega))
  rw [h]
  rfl

/-- One row of the benchmark result vector (src/main.rs lines 209, 228,
324): hash plus the three measured intervals in milliseconds. The receipt
status flag is not part of the row. -/
structure TxResult where
  hash : Nat
  sendMs : Nat
  confirmMs : Nat
  totalMs : Nat
deriving DecidableEq, Repr

/-- The benchmark transaction loop effect on the results vector
(src/main.rs lines 211-329): each iteration pushes its result tuple on
success; on error it only prints the error message at that moment and
pushes nothing, so the iteration leaves the vector unchanged. -/
def runBatch (outcomes : List (Option TxResult)) : List TxResult :=
  outcomes.foldl
    (fun results o =>
      match o with
      | some r => results ++ [r]
      | none => results) []

/-- A sample benchmark result row used by concrete witnesses. -/
def r0 : TxResult := { hash := 42, sendMs := 5, confirmMs := 6, totalMs := 11 }

theorem runBatch_go (outcomes : List (Option TxResult)) :
    ∀ acc : List TxResult,
      outcomes.foldl
        (fun results o =>
          match o with
          | some r => results ++ [r]
          | none => results) acc = acc ++ outcomes.reduceOption := by
  induction outcomes with
  | nil => intro acc; simp [List.reduceOption]
  | cons o rest ih =>
    intro acc
    cases o with
    | some r => simp [List.reduceOption_cons_of_some, ih]
    | none => simp [List.reduceOption_cons_of_none, ih]

/-- Claim C8 counterexample: a benchmark batch of two submitted operations
whose first errors produces a final summary holding only the second: the
failed operation is absent from the batch summary, which therefore does not
list every submitted operation. -/
theorem failed_tx_absent_from_summary :
    runBatch [none, some r0] = [r0] ∧
    ([none, some r0] : List (Option TxResult)).length = 2 ∧
    (runBatch [none, some r0]).length = 1 := by
  refine ⟨rfl, rfl, rfl⟩

/-- Claim C8 as amended: the final batch summary lists exactly the
operations whose submit-and-confirm call succeeded, in submission order;
an operation that errors is logged when the error occurs but is omitted
from the final summary (and the rows carry no status flag, so a status-0
receipt is not reported distinctly there). -/
theorem batch_summary_successes_only (outcomes : List (Option TxResult)) :
    runBatch outcomes = outcomes.reduceOption := by
  simpa [runBatch] using runBatch_go outcomes []

/-- The minimum of a list of millisecond values as the Rust iterator
computes it (src/main.rs line 356: `.min()` over the values). -/
def listMin : List Nat → Option Nat
  | [] => none
  | x :: xs =>
    match listMin xs with
    | none => some x
    | some m => some (Nat.min x m)

/-- The maximum of a list of millisecond values as the Rust iterator
computes it (src/main.rs line 357: `.max()` over the values). -/
def listMax : List Nat → Option Nat
  | [] => none
  | x :: xs =>
    match listMax xs with
    | none => some x
    | some m => some (Nat.max x m)

/-- The u128 modulus: the sum in src/main.rs line 358 is computed in u128
arithmetic. -/
def u128Mod : Nat := 2 ^ 128

/-- One statistics line of the latency summary (src/main.rs lines 353-377):
minimum with default 0, maximum with default 0, and the truncating integer
division of the u128 sum by the count. -/
def statLine (xs : List Nat) : Nat × Nat × Nat :=
  ((listMin xs).getD 0, (listMax xs).getD 0, (xs.sum % u128Mod) / xs.length)

theorem listMin_eq_none (xs : List Nat) : listMin xs = none ↔ xs = [] := by
  cases xs with
  | nil => simp [listMin]
  | cons x rest =>
    simp only [listMin]
    cases listMin rest <;> simp

theorem listMax_eq_none (xs : List Nat) : listMax xs = none ↔ xs = [] := by
  cases xs with
  | nil => simp [listMax]
  | cons x rest =>
    simp only [listMax]
    cases listMax rest <;> simp

theorem listMin_mul_le_sum :
    ∀ (xs : List Nat) (m : Nat), listMin xs = some m →
      m * xs.length ≤ xs.sum := by
  intro xs
  induction xs with
  | nil => intro m hm; simp [listMin] at hm
  | cons x rest ih =>
    intro m hm
    simp only [listMin] at hm
    cases hr : listMin rest with
    | none =>
      rw [hr] at hm
      have hrest : rest = [] := (listMin_eq_none rest).mp hr
      subst hrest
      simp at hm
      subst hm
      simp
    | some mr =>
      rw [hr] at hm
      simp at hm
      subst hm
      have hihm := ih mr hr
      have h1 : Nat.min x mr ≤ x := Nat.min_le_left x mr
      have h2 : Nat.min x mr ≤ mr := Nat.min_le_right x mr
      simp only [List.length_cons, List.sum_cons]
      calc Nat.min x mr * (rest.length + 1)
          = Nat.min x mr * rest.length + Nat.min x mr := by ring
        _ ≤ mr * rest.length + x := by
            exact Nat.add_le_add (Nat.mul_le_mul_right _ h2) h1
        _ ≤ x + rest.sum := by omega

theorem sum_le_listMax_mul :
    ∀ (xs : List Nat) (m : Nat), listMax xs = some m →
      xs.sum ≤ m * xs.length := by
  intro xs
  induction xs with
  | nil => intro m hm; simp [listMax] at hm
  | cons x rest ih =>
    intro m hm
    simp only [listMax] at hm
    cases hr : listMax rest with
    | none =>
      rw [hr] at hm
      have hrest : rest = [] := (listMax_eq_none rest).mp hr
      subst hrest
      simp at hm
      subst hm
      simp
    | some mr =>
      rw [hr] at hm
      simp at hm
      subst hm
      have hihm := ih mr hr
      have h1 : x ≤ Nat.max x mr := Nat.le_max_left x mr
      have h2 : mr ≤ Nat.max x mr := Nat.le_max_right x mr
      simp only [List.length_cons, List.sum_cons]
      calc x + rest.sum ≤ Nat.max x mr + mr * rest.length := by omega
        _ ≤ Nat.max x mr + Nat.max x mr * rest.length := by
            exact Nat.add_le_add_left (Nat.mul_le_mul_right _ h2) _
        _ = Nat.max x mr * (rest.length + 1) := by ring

theorem statLine_ordered (xs : List Nat) (hne : xs ≠ [])
    (hsum : xs.sum < u128Mod) :
    (statLine xs).1 ≤ (statLine xs).2.2 ∧
    (statLine xs).2.2 ≤ (statLine xs).2.1 := by
  obtain ⟨m, hm⟩ : ∃ m, listMin xs = some m := by
    cases h : listMin xs with
    | none => exact absurd ((listMin_eq_none xs).mp h) hne
    | some m => exact ⟨m, rfl⟩
  obtain ⟨M, hM⟩ : ∃ M, listMax xs = some M := by
    cases h : listMax xs with
    | none => exact absurd ((listMax_eq_none xs).mp h) hne
    | some M => exact ⟨M, rfl⟩
  have hlen : 0 < xs.length := List.length_pos.mpr hne
  have hmod : xs.sum % u128Mod = xs.sum := Nat.mod_eq_of_lt hsum
  simp only [statLine, hm, hM, Option.getD_some, hmod]
  constructor
  · rw [Nat.le_div_iff_mul_le hlen]
    exact listMin_mul_le_sum xs m hm
  · have h := sum_le_listMax_mul xs M hM
    calc xs.sum / xs.length ≤ M * xs.length / xs.length :=
          Nat.div_le_div_right h
      _ = M := Nat.mul_div_cancel M hlen

/-- Claim C9: for every non-empty benchmark result set whose per-measure
millisecond sums fit in u128, the latency statistics satisfy
min ≤ avg ≤ max independently for each of the three measures (send,
confirm, total), where avg is the truncating integer division of the
millisecond sum by the count. -/
theorem latency_stats_min_avg_max (results : List TxResult)
    (hne : results ≠ [])
    (hs : (results.map TxResult.sendMs).sum < u128Mod)
    (hc : (results.map TxResult.confirmMs).sum < u128Mod)
    (ht : (results.map TxResult.totalMs).sum < u128Mod) :
    ((statLine (results.map TxResult.sendMs)).1 ≤
        (statLine (results.map TxResult.sendMs)).2.2 ∧
      (statLine (results.map TxResult.sendMs)).2.2 ≤
        (statLine (results.map TxResult.sendMs)).2.1) ∧
    ((statLine (results.map TxResult.confirmMs)).1 ≤
        (statLine (results.map TxResult.confirmMs)).2.2 ∧
      (statLine (results.map TxResult.confirmMs)).2.2 ≤
        (statLine (results.map TxResult.confirmMs)).2.1) ∧
    ((statLine (results.map TxResult.totalMs)).1 ≤
        (statLine (results.map TxResult.totalMs)).2.2 ∧
      (statLine (results.map TxResult.totalMs)).2.2 ≤
        (statLine (results.map TxResult.totalMs)).2.1) := by
  have hmapne : ∀ f : TxResult → Nat, results.map f ≠ [] := by
    intro f h
    exact hne (List.map_eq_nil_iff.mp h)
  exact ⟨statLine_ordered _ (hmapne _) hs, statLine_ordered _ (hmapne _) hc,
    statLine_ordered _ (hmapne _) ht⟩

/-- Witness for C9 at a concrete two-row result set. -/
theorem latency_stats_min_avg_max_witness :
    ((statLine [5, 3]).1 ≤ (statLine [5, 3]).2.2 ∧
      (statLine [5, 3]).2.2 ≤ (statLine [5, 3]).2.1) ∧
    ((statLine [6, 10]).1 ≤ (statLine [6, 10]).2.2 ∧
      (statLine [6, 10]).2.2 ≤ (statLine [6, 10]).2.1) ∧
    ((statLine [11, 13]).1 ≤ (statLine [11, 13]).2.2 ∧
      (statLine [11, 13]).2.2 ≤ (statLine [11, 13]).2.1) := by
  have h := latency_stats_min_avg_max
    [{ hash := 42, sendMs := 5, confirmMs := 6, totalMs := 11 },
     { hash := 43, sendMs := 3, confirmMs := 10, totalMs := 13 }]
    (by simp) (by norm_num [u128Mod]) (by norm_num [u128Mod])
    (by norm_num [u128Mod])
  simpa using h

/-- Board width (src/snake/snake.rs line 40). -/
def boardWidth : Nat := 20

/-- Board height (src/snake/snake.rs line 41). -/
def boardHeight : Nat := 20

/-- A cell of the board (src/snake/snake.rs lines 44-48). The Rust
coordinates are u16; the guards in move_forward keep every computed
coordinate inside the board, far below 2 ^ 16, so plain Nat coordinates
agree with the u16 arithmetic wherever it is executed. -/
structure Position where
  x : Nat
  y : Nat
deriving DecidableEq, Repr

/-- The snake: body cells with the head first, plus the current heading
(src/snake/snake.rs lines 69-73). -/
structure Snake where
  body : List Position
  direction : Direction
deriving DecidableEq, Repr

/-- Snake::move_forward (src/snake/snake.rs lines 96-136): take the head;
if the head sits on the board edge in the movement direction, return none
and change nothing; otherwise compute the next cell (the x - 1 and y - 1
subtractions happen only behind the zero guards); if that cell collides
with the current body, return none and change nothing; otherwise push the
new head in front, drop the tail cell, and return the new head. -/
def moveForward (s : Snake) : Option Position × Snake :=
  match s.body with
  | [] => (none, s)
  | head :: _ =>
    let newHead? : Option Position :=
      match s.direction with
      | .up => if head.y = 0 then none else some ⟨head.x, head.y - 1⟩
      | .down =>
        if boardHeight - 1 ≤ head.y then none else some ⟨head.x, head.y + 1⟩
      | .left => if head.x = 0 then none else some ⟨head.x - 1, head.y⟩
      | .right =>
        if boardWidth - 1 ≤ head.x then none else some ⟨head.x + 1, head.y⟩
    match newHead? with
    | none => (none, s)
    | some nh =>
      if nh ∈ s.body then (none, s)
      else (some nh, { s with body := nh :: s.body.dropLast })

/-- A cell lies on the 20 x 20 board. -/
def inBoard (p : Position) : Prop := p.x < boardWidth ∧ p.y < boardHeight

instance (p : Position) : Decidable (inBoard p) := by
  unfold inBoard
  infer_instance

/-- The head sits on the board edge in the given movement direction, the
guard conditions of src/snake/snake.rs lines 99-122. -/
def atEdge (head : Position) : Direction → Prop
  | .up => head.y = 0
  | .down => boardHeight - 1 ≤ head.y
  | .left => head.x = 0
  | .right => boardWidth - 1 ≤ head.x

instance (head : Position) (d : Direction) : Decidable (atEdge head d) :=
  match d with
  | .up => inferInstanceAs (Decidable (head.y = 0))
  | .down => inferInstanceAs (Decidable (boardHeight - 1 ≤ head.y))
  | .left => inferInstanceAs (Decidable (head.x = 0))
  | .right => inferInstanceAs (Decidable (boardWidth - 1 ≤ head.x))

/-- The cell one step from the head in the given direction (total on Nat:
the claim theorem only consults it away from the edge). -/
def nextCell (head : Position) : Direction → Position
  | .up => ⟨head.x, head.y - 1⟩
  | .down => ⟨head.x, head.y + 1⟩
  | .left => ⟨head.x - 1, head.y⟩
  | .right => ⟨head.x + 1, head.y⟩

/-- Claim C10: for every snake whose body cells lie on the 20 x 20 board,
move_forward is total and in-bounds: when it returns none the snake is
unchanged; when it returns some new head, that head is still on the board
and the body becomes the new head followed by the old body without its
tail; and for a snake with a head, the move is refused exactly when the
head sits on the board edge in the movement direction or the next cell
collides with the current body — so the guarded coordinate arithmetic
never underflows. -/
theorem move_forward_safe (s : Snake) (hb : ∀ p ∈ s.body, inBoard p) :
    ((moveForward s).1 = none → (moveForward s).2 = s) ∧
    (∀ nh, (moveForward s).1 = some nh →
      inBoard nh ∧ (moveForward s).2.body = nh :: s.body.dropLast) ∧
    (∀ head rest, s.body = head :: rest →
      ((moveForward s).1 = none ↔
        atEdge head s.direction ∨ nextCell head s.direction ∈ s.body)) := by
  obtain ⟨body, dir⟩ := s
  cases body with
  | nil =>
    refine ⟨fun _ => rfl, fun nh h => by simp [moveForward] at h,
      fun hd rs h => by simp at h⟩
  | cons head rest =>
    have hhx : head.x < 20 := (hb head (by simp)).1
    have hhy : head.y < 20 := (hb head (by simp)).2
    have hinj : ∀ (hd : Position) (rs : List Position),
        (⟨head :: rest, dir⟩ : Snake).body = hd :: rs → hd = head ∧ rs = rest := by
      intro hd rs heq
      have heq2 : head :: rest = hd :: rs := heq
      injection heq2 with e1 e2
      exact ⟨e1.symm, e2.symm⟩
    cases dir with
    | up =>
      by_cases h0 : head.y = 0
      · refine ⟨fun _ => by simp [moveForward, h0],
          fun nh h => by simp [moveForward, h0] at h, fun hd rs heq => ?_⟩
        obtain ⟨rfl, rfl⟩ := hinj hd rs heq
        simp [moveForward, h0, atEdge]
      · by_cases hm : (⟨head.x, head.y - 1⟩ : Position) ∈ head :: rest
        · refine ⟨fun _ => by simp [moveForward, h0, hm],
            fun nh h => by simp [moveForward, h0, hm] at h,
            fun hd rs heq => ?_⟩
          obtain ⟨rfl, rfl⟩ := hinj hd rs heq
          simp [moveForward, h0, hm, atEdge, nextCell]
        · refine ⟨fun h => by simp [moveForward, h0, hm] at h,
            fun nh h => ?_, fun hd rs heq => ?_⟩
          · have hnh : nh = ⟨head.x, head.y - 1⟩ := by
              simp [moveForward, h0, hm] at h
              exact h.symm
            subst hnh
            exact ⟨⟨hhx, show head.y - 1 < 20 by omega⟩,
              by simp [moveForward, h0, hm]⟩
          · obtain ⟨rfl, rfl⟩ := hinj hd rs heq
            simp [moveForward, h0, hm, atEdge, nextCell]
    | down =>
      by_cases h0 : boardHeight - 1 ≤ head.y
      · refine ⟨fun _ => by simp [moveForward, h0],
          fun nh h => by simp [moveForward, h0] at h, fun hd rs heq => ?_⟩
        obtain ⟨rfl, rfl⟩ := hinj hd rs heq
        simp [moveForward, h0, atEdge]
      · have h0n : ¬(19 ≤ head.y) := h0
        by_cases hm : (⟨head.x, head.y + 1⟩ : Position) ∈ head :: rest
        · refine ⟨fun _ => by simp [moveForward, h0, hm],
            fun nh h => by simp [moveForward, h0, hm] at h,
            fun hd rs heq => ?_⟩
          obtain ⟨rfl, rfl⟩ := hinj hd rs heq
          simp [moveForward, h0, hm, atEdge, nextCell]
        · refine ⟨fun h => by simp [moveForward, h0, hm] at h,
            fun nh h => ?_, fun hd rs heq => ?_⟩
          · have hnh : nh = ⟨head.x, head.y + 1⟩ := by
              simp [moveForward, h0, hm] at h
              exact h.symm
            subst hnh
            exact ⟨⟨hhx, show head.y + 1 < 20 by omega⟩,
              by simp [moveForward, h0, hm]⟩
          · obtain ⟨rfl, rfl⟩ := hinj hd rs heq
            simp [moveForward, h0, hm, atEdge, nextCell]
    | left =>
      by_cases h0 : head.x = 0
      · refine ⟨fun _ => by simp [moveForward, h0],
          fun nh h => by simp [moveForward, h0] at h, fun hd rs heq => ?_⟩
        obtain ⟨rfl, rfl⟩ := hinj hd rs heq
        simp [moveForward, h0, atEdge]
      · by_cases hm : (⟨head.x - 1, head.y⟩ : Position) ∈ head :: rest
        · refine ⟨fun _ => by simp [moveForward, h0, hm],
            fun nh h => by simp [moveForward, h0, hm] at h,
            fun hd rs heq => ?_⟩
          obtain ⟨rfl, rfl⟩ := hinj hd rs heq
          simp [moveForward, h0, hm, atEdge, nextCell]
        · refine ⟨fun h => by simp [moveForward, h0, hm] at h,
            fun nh h => ?_, fun hd rs heq => ?_⟩
          · have hnh : nh = ⟨head.x - 1, head.y⟩ := by
              simp [moveForward, h0, hm] at h
              exact h.symm
            subst hnh
            exact ⟨⟨show head.x - 1 < 20 by omega, hhy⟩,
              by simp [moveForward, h0, hm]⟩
          · obtain ⟨rfl, rfl⟩ := hinj hd rs heq
            simp [moveForward, h0, hm, atEdge, nextCell]
    | right =>
      by_cases h0 : boardWidth - 1 ≤ head.x
      · refine ⟨fun _ => by simp [moveForward, h0],
          fun nh h => by simp [moveForward, h0] at h, fun hd rs heq => ?_⟩
        obtain ⟨rfl, rfl⟩ := hinj hd rs heq
        simp [moveForward, h0, atEdge]
      · have h0n : ¬(19 ≤ head.x) := h0
        by_cases hm : (⟨head.x + 1, head.y⟩ : Position) ∈ head :: rest
        · refine ⟨fun _ => by simp [moveForward, h0, hm],
            fun nh h => by simp [moveForward, h0, hm] at h,
            fun hd rs heq => ?_⟩
          obtain ⟨rfl, rfl⟩ := hinj hd rs heq
          simp [moveForward, h0, hm, atEdge, nextCell]
        · refine ⟨fun h => by simp [moveForward, h0, hm] at h,
            fun nh h => ?_, fun hd rs heq => ?_⟩
          · have hnh : nh = ⟨head.x + 1, head.y⟩ := by
              simp [moveForward, h0, hm] at h
              exact h.symm
            subst hnh
            exact ⟨⟨show head.x + 1 < 20 by omega, hhy⟩,
              by simp [moveForward, h0, hm]⟩
          · obtain ⟨rfl, rfl⟩ := hinj hd rs heq
            simp [moveForward, h0, hm, atEdge, nextCell]

/-- Witness for C10 at a concrete snake in the middle of the board heading
right: the move succeeds, the new head is on the board, and the body
advances. -/
theorem move_forward_safe_witness :
    inBoard (⟨11, 10⟩ : Position) ∧
    (moveForward ⟨[⟨10, 10⟩, ⟨9, 10⟩], .right⟩).2.body = [⟨11, 10⟩, ⟨10, 10⟩] := by
  have h := (move_forward_safe ⟨[⟨10, 10⟩, ⟨9, 10⟩], .right⟩ (by decide)).2.1
    ⟨11, 10⟩ (by decide)
  refine ⟨h.1, ?_⟩
  rw [h.2]
  decide

end TxLatency
